import Mathlib

/-!
Verification of the discord-timezone-helper server (src/entry.mjs).

The development shallowly embeds the pieces of the program that the
specification talks about:

* the screenshot cache-key derivation `toScreenshotCacheSlug` (entry.mjs
  lines 187-192),
* the `/embed` fragment builder: query defaulting, the fixed display rows,
  the `additionalTimezones` expansion, the main zoned date-time and the
  per-row conversion (entry.mjs lines 46-136),
* the `/screenshot.png` handler with its on-disk cache, its persisted
  index file and its stale-entry invalidation (entry.mjs lines 142-181).

External collaborators (the Temporal polyfill, the JavaScript runtime
primitives `localeCompare`, `Number`, `String.prototype.split`, and the
Node filesystem API) are modelled by explicit executable definitions whose
doc comments state exactly which documented behaviour they capture.
-/

/-! ## A model of locale-aware string comparison

`toScreenshotCacheSlug` sorts query keys with
`a.localeCompare(b)` (entry.mjs line 189).  `localeCompare` is a JavaScript
built-in; the model below captures the behaviour of the default en-US
collation on the strings this program compares (ASCII parameter names):
punctuation and symbols order before digits, digits before letters,
letters compare case-insensitively at the primary level, and a lowercase
letter orders before its own uppercase at the tertiary level.  The model
is a total order: distinct strings never compare equal. -/

/-- Primary collation weight of a character: ASCII letters are folded
case-insensitively and moved above every other character, ASCII digits sit
between the remaining characters and the letters. -/
def charPrimary (c : Char) : Nat :=
  let n := c.toNat
  if 65 ≤ n ∧ n ≤ 90 then 0x220000 + n + 32
  else if 97 ≤ n ∧ n ≤ 122 then 0x220000 + n
  else if 48 ≤ n ∧ n ≤ 57 then 0x110000 + n
  else n

/-- Tertiary collation weight: uppercase ASCII letters weigh 1, everything
else 0, so that a lowercase letter orders before its uppercase form when
the primary weights tie. -/
def charTertiary (c : Char) : Nat :=
  if 65 ≤ c.toNat ∧ c.toNat ≤ 90 then 1 else 0

/-- Lexicographic comparison of two weight lists. -/
def compareNatList : List Nat → List Nat → Ordering
  | [], [] => .eq
  | [], _ :: _ => .lt
  | _ :: _, [] => .gt
  | a :: as, b :: bs =>
    if a < b then .lt else if b < a then .gt else compareNatList as bs

/-- The primary collation key of a string. -/
def strPrimary (s : String) : List Nat := s.data.map charPrimary

/-- The tertiary collation key of a string. -/
def strTertiary (s : String) : List Nat := s.data.map charTertiary

/-- Collation order of two strings: primary weights first, tertiary
weights break ties. -/
def collOrd (a b : String) : Ordering :=
  match compareNatList (strPrimary a) (strPrimary b) with
  | .eq => compareNatList (strTertiary a) (strTertiary b)
  | o => o

/-- Model of `String.prototype.localeCompare` under the default en-US
collation, as the sign convention used by `Array.prototype.sort`. -/
def localeCompare (a b : String) : Int :=
  match collOrd a b with
  | .lt => -1
  | .eq => 0
  | .gt => 1

/-! ## The query model

A parsed HTTP query (fluvial's `QueryDictionary`) maps parameter names to
either a single string or an array of strings (repeated keys). -/

/-- A query-parameter value: a single string or an ordered sequence of
strings. -/
inductive QueryValue where
  | str (s : String)
  | arr (l : List String)
deriving DecidableEq

/-- A query mapping, as the ordered key/value entries of the JavaScript
dictionary object (`Object.entries` order). -/
abbrev Query := List (String × QueryValue)

/-- Look a parameter up in a query mapping. -/
def lookupQ (q : Query) (k : String) : Option QueryValue := q.lookup k

/-- Model of `Array.prototype.join` (and of the JavaScript
string-conversion of an array, which comma-joins its elements):
empty list to the empty string, otherwise elements interleaved with the
separator. -/
def joinWith (sep : String) : List String → String
  | [] => ""
  | [x] => x
  | x :: y :: ys => x ++ sep ++ joinWith sep (y :: ys)

/-- JavaScript string conversion of a query value: a string is itself, an
array converts by comma-joining its elements. -/
def qvalToString : QueryValue → String
  | .str s => s
  | .arr l => joinWith "," l

/-- Split a character list at every occurrence of the separator
character; contiguous separators produce empty segments, and the empty
list produces one empty segment. -/
def splitCharList (c : Char) : List Char → List (List Char)
  | [] => [[]]
  | x :: xs =>
    if x = c then [] :: splitCharList c xs
    else
      match splitCharList c xs with
      | [] => [[x]]
      | p :: ps => (x :: p) :: ps

/-- Model of `String.prototype.split` with a single-character separator:
the empty string splits to one empty piece, exactly as in JavaScript. -/
def splitChar (c : Char) (s : String) : List String :=
  (splitCharList c s.data).map (fun l => ⟨l⟩)

/-! ## The cache-key derivation (entry.mjs lines 187-192)

```
function toScreenshotCacheSlug(query) {
    return Object.entries(query)
        .sort(([ a ], [ b ]) => a.localeCompare(b))
        .map(([ key, value ]) => `${key}:${Array.isArray(value) ? value.join(',') : value}`)
        .join(';');
}
```

`Array.prototype.sort` with a consistent comparator is a stable sort into
comparator-ascending order; it is modelled by `List.insertionSort`, which
is exactly the stable sort. -/

/-- The formatted value of one entry: array values are comma-joined in
their original order, string values are used as-is. -/
def fmtVal : QueryValue → String
  | .str s => s
  | .arr l => joinWith "," l

/-- One formatted `key:value` piece of the cache key. -/
def fmtEntry (kv : String × QueryValue) : String :=
  kv.1 ++ ":" ++ fmtVal kv.2

/-- The sort order used on entries: ascending by key under
`localeCompare`, the comparator passed to `Array.prototype.sort`. -/
def slugLe (a b : String × QueryValue) : Prop :=
  localeCompare a.1 b.1 ≤ 0

instance : DecidableRel slugLe := fun a b =>
  inferInstanceAs (Decidable (localeCompare a.1 b.1 ≤ 0))

/-- `toScreenshotCacheSlug` (entry.mjs lines 187-192): sort the entries by
key with `localeCompare`, format each as `key:value` (array values
comma-joined), join the pieces with semicolons. -/
def toScreenshotCacheSlug (q : Query) : String :=
  joinWith ";" ((List.insertionSort slugLe q).map fmtEntry)

/-! ## A model of the Temporal date-time library

The program uses the `temporal-polyfill` package, an external collaborator
(spec section 1).  The model below captures the pieces the `/embed`
handler relies on:

* `Temporal.ZonedDateTime.from` with the default `overflow: "constrain"`
  option: non-numeric (NaN) field values raise a RangeError, an unknown
  timezone name raises, the year must lie inside the representable range,
  and out-of-range month, day, hour and minute values are clamped;
* `zdt.toInstant()` and `instant.toZonedDateTimeISO(tz)`.

Timezones are modelled by a fixed table of UTC offsets in minutes
(standard time; daylight-saving transitions are outside the model, which
does not affect any claim below).  Calendar arithmetic uses the standard
proleptic-Gregorian day-numbering algorithms. -/

/-- A zoned date-time: a wall-clock date and time paired with its
timezone name. -/
structure ZDT where
  timeZone : String
  year : Int
  month : Int
  day : Int
  hour : Int
  minute : Int
deriving DecidableEq

/-- Fixed-offset timezone table (minutes east of UTC, standard time) for
the zones exercised in this development; unknown names are rejected just
as the Temporal library rejects unknown IANA names. -/
def tzOffset (tz : String) : Option Int :=
  List.lookup tz
    [("America/Los_Angeles", -480), ("America/Denver", -420),
     ("America/New_York", -300), ("Etc/UTC", 0),
     ("Australia/Sydney", 600), ("Asia/Tokyo", 540),
     ("Europe/Paris", 60)]

/-- Is this a leap year in the proleptic Gregorian calendar? -/
def isLeapYear (y : Int) : Bool :=
  y.emod 4 = 0 && (y.emod 100 ≠ 0 || y.emod 400 = 0)

/-- Number of days in a month of the proleptic Gregorian calendar
(month already constrained to 1..12). -/
def daysInMonth (y m : Int) : Int :=
  if m = 2 then (if isLeapYear y then 29 else 28)
  else if m = 4 ∨ m = 6 ∨ m = 9 ∨ m = 11 then 30
  else 31

/-- Clamp a value into an inclusive range. -/
def clamp (lo hi x : Int) : Int := max lo (min hi x)

/-- Days since 1970-01-01 of a Gregorian date (the standard
days-from-civil algorithm, using truncating division as in its reference
formulation). -/
def daysFromCivil (y m d : Int) : Int :=
  let y' := if m ≤ 2 then y - 1 else y
  let era := (if 0 ≤ y' then y' else y' - 399) / 400
  let yoe := y' - era * 400
  let mp := if 2 < m then m - 3 else m + 9
  let doy := (153 * mp + 2) / 5 + d - 1
  let doe := yoe * 365 + yoe / 4 - yoe / 100 + doy
  era * 146097 + doe - 719468

/-- Gregorian date of a day number since 1970-01-01 (the standard
civil-from-days algorithm). -/
def civilFromDays (n : Int) : Int × Int × Int :=
  let z := n + 719468
  let era := (if 0 ≤ z then z else z - 146096) / 146097
  let doe := z - era * 146097
  let yoe := (doe - doe / 1460 + doe / 36524 - doe / 146096) / 365
  let y := yoe + era * 400
  let doy := doe - (365 * yoe + yoe / 4 - yoe / 100)
  let mp := (5 * doy + 2) / 153
  let d := doy - (153 * mp + 2) / 5 + 1
  let m := if mp < 10 then mp + 3 else mp - 9
  (if m ≤ 2 then y + 1 else y, m, d)

/-- Wall-clock minutes since the epoch of the fields of a zoned
date-time, ignoring its timezone offset. -/
def wallMinutes (z : ZDT) : Int :=
  daysFromCivil z.year z.month z.day * 1440 + z.hour * 60 + z.minute

/-- Model of `ZonedDateTime.prototype.toInstant`: the absolute instant,
in minutes since the epoch (an unknown zone contributes offset 0; the
program only calls this on a zone already validated by
`Temporal.ZonedDateTime.from`). -/
def toInstant (z : ZDT) : Int :=
  wallMinutes z - (tzOffset z.timeZone).getD 0

/-- Model of `Instant.prototype.toZonedDateTimeISO`: convert an absolute
instant into the wall-clock fields of the given timezone; an unknown
timezone name raises, as in the Temporal library. -/
def toZonedDateTimeISO (inst : Int) (tz : String) : Except String ZDT :=
  match tzOffset tz with
  | none => .error "invalid timezone"
  | some off =>
    let total := inst + off
    let days := total.ediv 1440
    let rem := total.emod 1440
    let (y, m, d) := civilFromDays days
    .ok ⟨tz, y, m, d, rem / 60, rem % 60⟩

/-- Model of `Temporal.ZonedDateTime.from` on a property bag of numeric
fields with the default `overflow: "constrain"`: a NaN field (modelled as
`none`) raises, an unknown timezone raises, a year outside the
representable range raises, and month, day, hour and minute are clamped
into range. -/
def zonedDateTimeFrom (tz : String) (y m d h mi : Option Int) :
    Except String ZDT :=
  match tzOffset tz with
  | none => .error "invalid timezone"
  | some _ =>
    match y, m, d, h, mi with
    | some y, some m, some d, some h, some mi =>
      if y < -271821 ∨ 275760 < y then .error "date out of range"
      else
        let m' := clamp 1 12 m
        let d' := clamp 1 (daysInMonth y m') d
        .ok ⟨tz, y, m', d', clamp 0 23 h, clamp 0 59 mi⟩
    | _, _, _, _, _ => .error "invalid numeric field"

/-! ## A model of JavaScript numeric coercion

`targetDate` builds each field as `+(field ?? default)` (entry.mjs lines
83-90): a missing parameter defaults, a present one goes through the
JavaScript `ToNumber` coercion. -/

/-- JavaScript whitespace accepted around a numeric literal. -/
def isJsSpace (c : Char) : Bool :=
  c = ' ' || c = '\t' || c = '\n' || c = '\r'

/-- Parse a non-empty all-digit character list as a natural number. -/
def parseDigits (ds : List Char) : Option Nat :=
  if ds = [] then none
  else if ds.all (fun c => c.isDigit) then
    some (ds.foldl (fun a c => a * 10 + (c.toNat - 48)) 0)
  else none

/-- Model of the JavaScript `ToNumber` coercion (unary plus) restricted
to optionally signed decimal integer literals with surrounding
whitespace: the empty or all-whitespace string coerces to 0, any other
non-numeric string to NaN (`none`).  Fractional, exponential and radix
literal forms are outside the model; no claim below exercises them. -/
def jsToNumber (s : String) : Option Int :=
  let chars :=
    ((s.data.dropWhile isJsSpace).reverse.dropWhile isJsSpace).reverse
  match chars with
  | [] => some 0
  | '-' :: ds => (parseDigits ds).map (fun n => -(n : Int))
  | '+' :: ds => (parseDigits ds).map (fun n => (n : Int))
  | ds => (parseDigits ds).map (fun n => (n : Int))

/-! ## The `/embed` fragment builder (entry.mjs lines 46-136) -/

/-- One timezone display row specification: display label, IANA timezone
name, formatting locale. -/
structure RowSpec where
  name : String
  timezone : String
  locale : String
deriving DecidableEq

/-- The five fixed built-in rows (entry.mjs lines 53-78). -/
def fixedFormats : List RowSpec :=
  [⟨"Ward Radio HQ", "America/Los_Angeles", "en-US"⟩,
   ⟨"US East Coasters", "America/New_York", "en-US"⟩,
   ⟨"Mormon Central Time (Utah)", "America/Denver", "en-US"⟩,
   ⟨"Sydney, AU", "Australia/Sydney", "en-AU"⟩,
   ⟨"UTC/Zulu/GMT", "Etc/UTC", "en-GB"⟩]

/-- The main timezone: the `tz` parameter, defaulting to America/Denver
(entry.mjs line 51). -/
def mainTimezone (q : Query) : String :=
  match lookupQ q "tz" with
  | some v => qvalToString v
  | none => "America/Denver"

/-- The expansion of the `additionalTimezones` parameter (entry.mjs line
79): a string value is comma-split, an array value is used as-is, a
missing parameter contributes nothing. -/
def additionalTzList (q : Query) : List String :=
  match lookupQ q "additionalTimezones" with
  | some (.str s) => splitChar ',' s
  | some (.arr l) => l
  | none => []

/-- The full display-row list (entry.mjs lines 53-81): the five fixed
rows followed by one row per additional timezone, the raw zone string
serving as both label and timezone with locale en-US. -/
def keyFormats (q : Query) : List RowSpec :=
  fixedFormats ++
    (additionalTzList q).map (fun t => ⟨t, t, "en-US"⟩)

/-- One numeric field of the target date: `+(field ?? default)`
(entry.mjs lines 85-89). -/
def numField (q : Query) (k : String) (dflt : Int) : Option Int :=
  match lookupQ q k with
  | none => some dflt
  | some v => jsToNumber (qvalToString v)

/-- The main zoned date-time `targetDate` (entry.mjs lines 83-90). -/
def targetDate (q : Query) : Except String ZDT :=
  zonedDateTimeFrom (mainTimezone q)
    (numField q "year" 2024) (numField q "month" 1)
    (numField q "day" 12) (numField q "hour" 16)
    (numField q "minute" 0)

/-- The locale used for the prepended main-zone row:
`req.query.locale ?? 'en-US'` (entry.mjs line 114). -/
def resolvedLocale (q : Query) : String :=
  match lookupQ q "locale" with
  | some v => qvalToString v
  | none => "en-US"

/-- Is an extra main-zone row prepended?  The check on entry.mjs line
114: `!keyFormats.some(f => f.timezone == mainTimezone)` — note that it
ranges over the whole row list, additional timezones included. -/
def prependMainRow (q : Query) : Bool :=
  !(keyFormats q).any (fun f => f.timezone == mainTimezone q)

/-- One rendered comparison row: its label, the timezone it shows, the
zoned date-time displayed, and the locale used to format it. -/
structure DisplayRow where
  label : String
  timezone : String
  datetime : ZDT
  locale : String
deriving DecidableEq

/-- The date-time shown in one row (entry.mjs lines 115-125): the target
date itself when the row timezone equals the main timezone, otherwise the
target date taken to its instant and converted into the row timezone. -/
def rowDatetime (mainTz : String) (td : ZDT) (f : RowSpec) :
    Except String ZDT :=
  if f.timezone = mainTz then .ok td
  else toZonedDateTimeISO (toInstant td) f.timezone

/-- The rows produced by mapping over the row specifications (entry.mjs
lines 115-128); an invalid additional timezone raises, aborting the
template exactly as the exception aborts the request. -/
def mapRows (mainTz : String) (td : ZDT) :
    List RowSpec → Except String (List DisplayRow)
  | [] => .ok []
  | f :: fs =>
    match rowDatetime mainTz td f with
    | .error e => .error e
    | .ok dt =>
      match mapRows mainTz td fs with
      | .error e => .error e
      | .ok rest => .ok (⟨f.name, f.timezone, dt, f.locale⟩ :: rest)

/-- The comparison rows of the rendered fragment (entry.mjs lines
113-129): the optional prepended main-zone row followed by the mapped
rows.  The surrounding markup, repeated identically for the three visual
styles, is injective templating around this list and is not modelled. -/
def displayRows (q : Query) : Except String (List DisplayRow) :=
  match targetDate q with
  | .error e => .error e
  | .ok td =>
    match mapRows (mainTimezone q) td (keyFormats q) with
    | .error e => .error e
    | .ok rows =>
      .ok ((if prependMainRow q then
              [⟨mainTimezone q, mainTimezone q, td, resolvedLocale q⟩]
            else []) ++ rows)

/-! ## The screenshot cache (entry.mjs lines 142-181)

The cache state is the in-memory index `screenshotCache` (cache key to
file path), the filesystem (path to byte content), and the content of the
persisted index file `.tmp/cache.json` (kept structurally, sparing the
JSON encoding).  Filesystem primitives model the Node `fs` API:
`existsSync`, `readFile`, `writeFile`, and `rm` — which, called without
the `force` option, rejects with ENOENT when the path does not exist.

The browser capture (entry.mjs lines 158-173) is external input to the
cache lifecycle: it is passed in as either the captured PNG bytes or a
navigation/locator failure, and the freshly generated unique file path
(`randomUUID() + ".png"`) is likewise a parameter. -/

/-- Insert or overwrite a key in an association list, keeping the
position of an existing key and appending a new one — JavaScript
property-assignment order. -/
def insertAssoc (k : String) (v : α) :
    List (String × α) → List (String × α)
  | [] => [(k, v)]
  | (k', v') :: rest =>
    if k' = k then (k, v) :: rest else (k', v') :: insertAssoc k v rest

/-- The filesystem: a mapping from path to file bytes. -/
abbrev FileSystem := List (String × List Nat)

/-- Model of `existsSync`. -/
def existsSyncFS (fs : FileSystem) (p : String) : Bool :=
  (fs.lookup p).isSome

/-- Model of `readFile`. -/
def readFileFS (fs : FileSystem) (p : String) : Option (List Nat) :=
  fs.lookup p

/-- Model of `writeFile`: create or overwrite. -/
def writeFileFS (fs : FileSystem) (p : String) (b : List Nat) :
    FileSystem :=
  insertAssoc p b fs

/-- Model of `fs.promises.rm` without the `force` option: removing a
missing path rejects with ENOENT. -/
def rmFS (fs : FileSystem) (p : String) : Except String FileSystem :=
  if (fs.lookup p).isSome then
    .ok (fs.filter (fun e => e.1 ≠ p))
  else .error "ENOENT"

/-- The mutable state of the screenshot cache: the in-memory index, the
filesystem, and the persisted index file. -/
structure CacheState where
  index : List (String × String)
  fs : FileSystem
  persisted : List (String × String)
deriving DecidableEq

/-- Observable effects on the cache index: an in-memory mutation
(recording the index right after it), and a rewrite of the persisted
index file (recording the full snapshot written). -/
inductive CacheEvent where
  | mutate (idx : List (String × String))
  | persist (idx : List (String × String))
deriving DecidableEq

/-- The outcome of a `/screenshot.png` request: bytes sent, or the
request failing with a surfaced error. -/
inductive HandlerOutcome where
  | sent (b : List Nat)
  | error (e : String)
deriving DecidableEq

/-- The cache store operation (entry.mjs lines 175-178): record the fresh
path in the index, write the image bytes to it, then rewrite the whole
index to the persisted file. -/
def cacheStore (s : CacheState) (key : String) (bytes : List Nat)
    (freshPath : String) : CacheState :=
  let index' := insertAssoc key freshPath s.index
  { index := index',
    fs := writeFileFS s.fs freshPath bytes,
    persisted := index' }

/-- The cache lookup (entry.mjs lines 149-151): a hit only when the key
is in the index and the file at its recorded path exists; the hit carries
the path and the file contents read back. -/
def cacheLookup (s : CacheState) (key : String) :
    Option (String × List Nat) :=
  match s.index.lookup key with
  | none => none
  | some p =>
    match readFileFS s.fs p with
    | none => none
    | some b => some (p, b)

/-- The capture-and-store tail of the handler (entry.mjs lines 158-180):
on capture failure the request fails with no cache mutation; on success
the index gains the fresh path, the bytes are written, and the full index
is rewritten to the persisted file. -/
def captureAndStore (s : CacheState) (slug freshPath : String)
    (capture : Except String (List Nat)) :
    CacheState × HandlerOutcome × List CacheEvent :=
  match capture with
  | .error e => (s, .error e, [])
  | .ok img =>
    let s' := cacheStore s slug img freshPath
    (s', .sent img, [.mutate s'.index, .persist s'.index])

/-- The `/screenshot.png` handler (entry.mjs lines 144-181).  On a hit
the cached file is sent.  When the key is present but the file is
missing, the code runs `await rm(path)` and then deletes the index entry
before falling through to recapture; `rm` is modelled faithfully,
rejection included. -/
def screenshotHandler (s : CacheState) (slug freshPath : String)
    (capture : Except String (List Nat)) :
    CacheState × HandlerOutcome × List CacheEvent :=
  match s.index.lookup slug with
  | some p =>
    if existsSyncFS s.fs p then
      (s, .sent ((readFileFS s.fs p).getD []), [])
    else
      match rmFS s.fs p with
      | .error e => (s, .error e, [])
      | .ok fs' =>
        let index' := s.index.filter (fun kv => kv.1 ≠ slug)
        let s' : CacheState := { s with index := index', fs := fs' }
        let r := captureAndStore s' slug freshPath capture
        (r.1, r.2.1, .mutate index' :: r.2.2)
  | none => captureAndStore s slug freshPath capture

/-- Every in-memory index mutation in an effect trace is followed,
later in the trace, by a rewrite of the persisted index file carrying the
given full snapshot. -/
def mutationsPersisted (finalIdx : List (String × String)) :
    List CacheEvent → Prop
  | [] => True
  | .mutate _ :: rest =>
    CacheEvent.persist finalIdx ∈ rest ∧ mutationsPersisted finalIdx rest
  | .persist _ :: rest => mutationsPersisted finalIdx rest

/-- A well-formed query entry for injectivity purposes: a single string
value free of semicolons, under a key free of colons and semicolons. -/
def plainEntry (kv : String × QueryValue) : Prop :=
  match kv.2 with
  | .str v => ';' ∉ v.data ∧ ':' ∉ kv.1.data ∧ ';' ∉ kv.1.data
  | .arr _ => False

instance : DecidablePred plainEntry := fun kv =>
  match kv with
  | (_, .str _) =>
    inferInstanceAs (Decidable (_ ∧ _ ∧ _))
  | (_, .arr _) => inferInstanceAs (Decidable False)

/-- The five rows rendered for the empty query, with the date-times the
model computes for the default instant (2024-01-12 16:00 in
America/Denver). -/
def fiveDefaultRows : List DisplayRow :=
  [⟨"Ward Radio HQ", "America/Los_Angeles",
      ⟨"America/Los_Angeles", 2024, 1, 12, 15, 0⟩, "en-US"⟩,
   ⟨"US East Coasters", "America/New_York",
      ⟨"America/New_York", 2024, 1, 12, 18, 0⟩, "en-US"⟩,
   ⟨"Mormon Central Time (Utah)", "America/Denver",
      ⟨"America/Denver", 2024, 1, 12, 16, 0⟩, "en-US"⟩,
   ⟨"Sydney, AU", "Australia/Sydney",
      ⟨"Australia/Sydney", 2024, 1, 13, 9, 0⟩, "en-AU"⟩,
   ⟨"UTC/Zulu/GMT", "Etc/UTC",
      ⟨"Etc/UTC", 2024, 1, 12, 23, 0⟩, "en-GB"⟩]

/-- Entries that agree on the key and on the formatted value — the
sort comparator and the piece formatter cannot tell them apart. -/
def entryRel (e₁ e₂ : String × QueryValue) : Prop :=
  e₁.1 = e₂.1 ∧ fmtVal e₁.2 = fmtVal e₂.2

deriving instance DecidableEq for Except

/-! ## Properties of the collation model -/

theorem char_toNat_inj (c d : Char) (h : c.toNat = d.toNat) : c = d :=
  Char.eq_of_val_eq (UInt32.ext h)

theorem char_toNat_lt (c : Char) : c.toNat < 0x110000 := by
  rcases c.valid with h | ⟨_, h⟩
  · exact Nat.lt_trans h (by norm_num)
  · exact h

theorem char_eq_of_weights (c d : Char)
    (hp : charPrimary c = charPrimary d)
    (ht : charTertiary c = charTertiary d) : c = d := by
  have hc := char_toNat_lt c
  have hd := char_toNat_lt d
  apply char_toNat_inj
  simp only [charPrimary, charTertiary] at hp ht
  split_ifs at hp ht <;> omega

theorem weights_inj :
    ∀ (l₁ l₂ : List Char), l₁.map charPrimary = l₂.map charPrimary →
      l₁.map charTertiary = l₂.map charTertiary → l₁ = l₂
  | [], [] => by simp
  | [], _ :: _ => by simp
  | _ :: _, [] => by simp
  | a :: as, b :: bs => by
    intro hp ht
    simp only [List.map_cons, List.cons.injEq] at hp ht
    exact List.cons_eq_cons.mpr
      ⟨char_eq_of_weights a b hp.1 ht.1, weights_inj as bs hp.2 ht.2⟩

theorem compareNatList_swap :
    ∀ a b : List Nat, compareNatList b a = (compareNatList a b).swap
  | [], [] => rfl
  | [], _ :: _ => rfl
  | _ :: _, [] => rfl
  | x :: xs, y :: ys => by
    simp only [compareNatList]
    rcases Nat.lt_trichotomy x y with h | h | h
    · rw [if_pos h, if_neg (Nat.lt_asymm h), if_pos h]
      rfl
    · subst h
      rw [if_neg (Nat.lt_irrefl x), if_neg (Nat.lt_irrefl x),
        if_neg (Nat.lt_irrefl x), if_neg (Nat.lt_irrefl x)]
      exact compareNatList_swap xs ys
    · rw [if_pos h, if_neg (Nat.lt_asymm h), if_pos h]
      rfl

theorem compareNatList_eq_iff :
    ∀ a b : List Nat, compareNatList a b = .eq ↔ a = b
  | [], [] => by simp [compareNatList]
  | [], _ :: _ => by simp [compareNatList]
  | _ :: _, [] => by simp [compareNatList]
  | x :: xs, y :: ys => by
    simp only [compareNatList]
    rcases Nat.lt_trichotomy x y with h | h | h
    · rw [if_pos h]
      simp only [List.cons.injEq]
      constructor
      · intro hc
        exact absurd hc (by simp)
      · rintro ⟨rfl, -⟩
        exact absurd h (Nat.lt_irrefl x)
    · subst h
      rw [if_neg (Nat.lt_irrefl x), if_neg (Nat.lt_irrefl x)]
      simp [compareNatList_eq_iff xs ys]
    · rw [if_neg (Nat.lt_asymm h), if_pos h]
      simp only [List.cons.injEq]
      constructor
      · intro hc
        exact absurd hc (by simp)
      · rintro ⟨rfl, -⟩
        exact absurd h (Nat.lt_irrefl x)

theorem compareNatList_ne_gt_trans :
    ∀ a b c : List Nat, compareNatList a b ≠ .gt →
      compareNatList b c ≠ .gt → compareNatList a c ≠ .gt
  | [], b, c => by
    intro _ _
    cases c <;> simp [compareNatList]
  | _ :: _, [], _ => by
    intro h₁ _
    exact absurd rfl h₁
  | _ :: _, _ :: _, [] => by
    intro _ h₂
    exact absurd rfl h₂
  | x :: xs, y :: ys, z :: zs => by
    intro h₁ h₂
    simp only [compareNatList] at h₁ h₂ ⊢
    rcases Nat.lt_trichotomy x y with hxy | hxy | hxy
    · rcases Nat.lt_trichotomy y z with hyz | hyz | hyz
      · rw [if_pos (Nat.lt_trans hxy hyz)]
        simp
      · subst hyz
        rw [if_pos hxy]
        simp
      · rw [if_neg (Nat.lt_asymm hyz), if_pos hyz] at h₂
        exact absurd rfl h₂
    · subst hxy
      rw [if_neg (Nat.lt_irrefl x), if_neg (Nat.lt_irrefl x)] at h₁
      rcases Nat.lt_trichotomy x z with hxz | hxz | hxz
      · rw [if_pos hxz]
        simp
      · subst hxz
        rw [if_neg (Nat.lt_irrefl x), if_neg (Nat.lt_irrefl x)] at h₂ ⊢
        exact compareNatList_ne_gt_trans xs ys zs h₁ h₂
      · rw [if_neg (Nat.lt_asymm hxz), if_pos hxz] at h₂
        exact absurd rfl h₂
    · rw [if_neg (Nat.lt_asymm hxy), if_pos hxy] at h₁
      exact absurd rfl h₁

theorem collOrd_swap (a b : String) : collOrd b a = (collOrd a b).swap := by
  unfold collOrd
  rw [compareNatList_swap (strPrimary a) (strPrimary b),
    compareNatList_swap (strTertiary a) (strTertiary b)]
  cases compareNatList (strPrimary a) (strPrimary b) <;>
    cases compareNatList (strTertiary a) (strTertiary b) <;> rfl

theorem collOrd_eq_iff (a b : String) : collOrd a b = .eq ↔ a = b := by
  constructor
  · intro h
    unfold collOrd at h
    cases hp : compareNatList (strPrimary a) (strPrimary b) with
    | lt => rw [hp] at h; exact absurd h (by simp)
    | gt => rw [hp] at h; exact absurd h (by simp)
    | eq =>
      rw [hp] at h
      have h1 := (compareNatList_eq_iff _ _).mp hp
      have h2 := (compareNatList_eq_iff _ _).mp h
      simp only [strPrimary, strTertiary] at h1 h2
      have hdata : a.data = b.data := weights_inj _ _ h1 h2
      cases a
      cases b
      exact congrArg String.mk hdata
  · rintro rfl
    simp [collOrd, (compareNatList_eq_iff _ _).mpr rfl]

theorem collOrd_ne_gt_trans (a b c : String) (h₁ : collOrd a b ≠ .gt)
    (h₂ : collOrd b c ≠ .gt) : collOrd a c ≠ .gt := by
  unfold collOrd at h₁ h₂ ⊢
  cases hp₁ : compareNatList (strPrimary a) (strPrimary b) with
  | gt => rw [hp₁] at h₁; exact absurd rfl h₁
  | lt =>
    rw [hp₁] at h₁
    cases hp₂ : compareNatList (strPrimary b) (strPrimary c) with
    | gt => rw [hp₂] at h₂; exact absurd rfl h₂
    | lt =>
      rw [hp₂] at h₂
      cases hpc : compareNatList (strPrimary a) (strPrimary c) with
      | lt => simp
      | gt =>
        exact absurd hpc
          (compareNatList_ne_gt_trans (strPrimary a) (strPrimary b)
            (strPrimary c) (by simp [hp₁]) (by simp [hp₂]))
      | eq =>
        have : strPrimary a = strPrimary c := (compareNatList_eq_iff _ _).mp hpc
        rw [this] at hp₁
        rw [compareNatList_swap (strPrimary b) (strPrimary c), hp₂] at hp₁
        exact absurd hp₁ (by decide)
    | eq =>
      have : strPrimary b = strPrimary c := (compareNatList_eq_iff _ _).mp hp₂
      rw [← this, hp₁]
      exact fun hcon => Ordering.noConfusion hcon
  | eq =>
    rw [hp₁] at h₁
    have hpe : strPrimary a = strPrimary b := (compareNatList_eq_iff _ _).mp hp₁
    cases hp₂ : compareNatList (strPrimary b) (strPrimary c) with
    | gt => rw [hp₂] at h₂; exact absurd rfl h₂
    | lt =>
      rw [hpe, hp₂]
      exact fun hcon => Ordering.noConfusion hcon
    | eq =>
      rw [hp₂] at h₂
      have hpe₂ : strPrimary b = strPrimary c := (compareNatList_eq_iff _ _).mp hp₂
      rw [hpe, hpe₂, (compareNatList_eq_iff _ _).mpr rfl]
      have hte : strTertiary a = strTertiary b → strTertiary b = strTertiary c →
          strTertiary a = strTertiary c := fun x y => x.trans y
      exact compareNatList_ne_gt_trans _ _ _ h₁ h₂

theorem collOrd_antisymm (a b : String) (h₁ : collOrd a b ≠ .gt)
    (h₂ : collOrd b a ≠ .gt) : a = b := by
  rw [collOrd_swap a b] at h₂
  apply (collOrd_eq_iff a b).mp
  cases h : collOrd a b with
  | lt => rw [h] at h₂; exact absurd rfl h₂
  | gt => exact absurd h h₁
  | eq => rfl

theorem localeCompare_le_iff (a b : String) :
    localeCompare a b ≤ 0 ↔ collOrd a b ≠ .gt := by
  unfold localeCompare
  cases collOrd a b <;> simp

instance : IsTotal (String × QueryValue) slugLe := by
  constructor
  intro a b
  unfold slugLe
  rw [localeCompare_le_iff, localeCompare_le_iff]
  cases h : collOrd a.1 b.1 with
  | lt => left; simp [h]
  | eq => left; simp [h]
  | gt =>
    right
    rw [collOrd_swap, h]
    decide

instance : IsTrans (String × QueryValue) slugLe := by
  constructor
  intro a b c h₁ h₂
  unfold slugLe at *
  rw [localeCompare_le_iff] at h₁ h₂ ⊢
  exact collOrd_ne_gt_trans _ _ _ h₁ h₂

/-- Two sorted lists that are permutations of each other are equal, as
soon as the order is antisymmetric on the elements involved. -/
theorem sorted_perm_eq_of_antisymm {α : Type} {r : α → α → Prop} :
    ∀ {l₁ l₂ : List α}, l₁.Perm l₂ → l₁.Sorted r → l₂.Sorted r →
      (∀ a ∈ l₁, ∀ b ∈ l₁, r a b → r b a → a = b) → l₁ = l₂
  | [], l₂ => fun hp _ _ _ => (hp.symm.eq_nil).symm
  | a :: t₁, [] => fun hp _ _ _ => absurd hp.eq_nil (by simp)
  | a :: t₁, b :: t₂ => by
    intro hp hs₁ hs₂ hanti
    by_cases hab : a = b
    · subst hab
      have ht : t₁ = t₂ :=
        sorted_perm_eq_of_antisymm hp.cons_inv hs₁.of_cons hs₂.of_cons
          (fun x hx y hy => hanti x (List.mem_cons_of_mem _ hx)
            y (List.mem_cons_of_mem _ hy))
      rw [ht]
    · exfalso
      have ha2 : a ∈ t₂ := by
        have := hp.subset (List.mem_cons_self a t₁)
        rcases List.mem_cons.mp this with h | h
        · exact absurd h hab
        · exact h
      have hb1 : b ∈ t₁ := by
        have := hp.symm.subset (List.mem_cons_self b t₂)
        rcases List.mem_cons.mp this with h | h
        · exact absurd h.symm hab
        · exact h
      have hrab : r a b := List.rel_of_sorted_cons hs₁ b hb1
      have hrba : r b a := List.rel_of_sorted_cons hs₂ a ha2
      exact hab (hanti a (List.mem_cons_self a t₁) b
        (List.mem_cons_of_mem _ hb1) hrab hrba)

/-- C1: for every query mapping (distinct keys, values strings or string
sequences), the cache key derived by `toScreenshotCacheSlug` depends only
on the set of entries, not on their insertion order: any reordering of
the entries yields the same key, so the derivation is deterministic and
insertion-order independent. -/
theorem toScreenshotCacheSlug_insertion_order_independent
    (q₁ q₂ : Query) (hperm : q₁.Perm q₂)
    (hkeys : (q₁.map Prod.fst).Nodup) :
    toScreenshotCacheSlug q₁ = toScreenshotCacheSlug q₂ := by
  unfold toScreenshotCacheSlug
  have hsort : List.insertionSort slugLe q₁ = List.insertionSort slugLe q₂ := by
    apply sorted_perm_eq_of_antisymm
    · exact (List.perm_insertionSort slugLe q₁).trans
        (hperm.trans (List.perm_insertionSort slugLe q₂).symm)
    · exact List.sorted_insertionSort slugLe q₁
    · exact List.sorted_insertionSort slugLe q₂
    · intro a ha b hb hab hba
      have ha' : a ∈ q₁ := by simpa using ha
      have hb' : b ∈ q₁ := by simpa using hb
      unfold slugLe at hab hba
      rw [localeCompare_le_iff] at hab hba
      have hk : a.1 = b.1 := collOrd_antisymm _ _ hab hba
      exact List.inj_on_of_nodup_map hkeys ha' hb' hk
  rw [hsort]

/-- Witness for C1 at a concrete input: the two insertion orders of the
same two parameters produce the same cache key. -/
theorem toScreenshotCacheSlug_insertion_order_independent_witness :
    toScreenshotCacheSlug [("tz", .str "Etc/UTC"), ("day", .str "3")] =
      toScreenshotCacheSlug [("day", .str "3"), ("tz", .str "Etc/UTC")] :=
  toScreenshotCacheSlug_insertion_order_independent _ _
    (by decide) (by decide)

/-! ## Injectivity analysis of the cache key (C2) -/

theorem string_data_inj {a b : String} (h : a.data = b.data) : a = b := by
  cases a
  cases b
  exact congrArg String.mk h

/-- Two decompositions of a character list around a separator that both
prefixes avoid coincide. -/
theorem append_sep_inj (sep : Char) :
    ∀ (a₁ a₂ t₁ t₂ : List Char), sep ∉ a₁ → sep ∉ a₂ →
      a₁ ++ sep :: t₁ = a₂ ++ sep :: t₂ → a₁ = a₂ ∧ t₁ = t₂
  | [], [], t₁, t₂ => by simp
  | [], b :: bs, t₁, t₂ => by
    intro _ h₂ h
    simp only [List.nil_append, List.cons_append, List.cons.injEq] at h
    exact absurd (h.1 ▸ List.mem_cons_self b bs) h₂
  | a :: as, [], t₁, t₂ => by
    intro h₁ _ h
    simp only [List.nil_append, List.cons_append, List.cons.injEq] at h
    exact absurd (h.1 ▸ List.mem_cons_self a as) h₁
  | a :: as, b :: bs, t₁, t₂ => by
    intro h₁ h₂ h
    simp only [List.cons_append, List.cons.injEq] at h
    obtain ⟨rfl, h⟩ := h
    have := append_sep_inj sep as bs t₁ t₂
      (fun hm => h₁ (List.mem_cons_of_mem _ hm))
      (fun hm => h₂ (List.mem_cons_of_mem _ hm)) h
    exact ⟨by rw [this.1], this.2⟩

theorem append_semi_data (x j : String) :
    (x ++ ";" ++ j).data = x.data ++ ';' :: j.data := by
  simp [String.data_append]

/-- The character content of a semicolon-joined list with at least two
pieces. -/
theorem joinWith_semi_data (x y : String) (ys : List String) :
    (joinWith ";" (x :: y :: ys)).data =
      x.data ++ ';' :: (joinWith ";" (y :: ys)).data := by
  rw [joinWith]
  exact append_semi_data x (joinWith ";" (y :: ys))

theorem fmtEntry_str_data (k v : String) :
    (fmtEntry (k, .str v)).data = k.data ++ ':' :: v.data := by
  simp [fmtEntry, fmtVal, String.data_append]

theorem piece_no_semi (e : String × QueryValue) (he : plainEntry e) :
    ';' ∉ (fmtEntry e).data := by
  obtain ⟨k, v⟩ := e
  cases v with
  | arr l => exact he.elim
  | str v =>
    obtain ⟨hv, _, hk⟩ := he
    rw [fmtEntry_str_data]
    intro hmem
    rcases List.mem_append.mp hmem with h | h
    · exact hk h
    · rcases List.mem_cons.mp h with h | h
      · exact absurd h.symm (by decide)
      · exact hv h

theorem piece_has_colon (e : String × QueryValue) :
    ':' ∈ (fmtEntry e).data := by
  obtain ⟨k, v⟩ := e
  simp [fmtEntry, String.data_append]

/-- Joining semicolon-free nonempty piece lists with semicolons is
injective. -/
theorem joinWith_semi_inj :
    ∀ (ps₁ ps₂ : List String), (∀ p ∈ ps₁, ';' ∉ p.data) →
      (∀ p ∈ ps₂, ';' ∉ p.data) → ps₁ ≠ [] → ps₂ ≠ [] →
      joinWith ";" ps₁ = joinWith ";" ps₂ → ps₁ = ps₂
  | [], _, _, _, hne, _ => fun _ => absurd rfl hne
  | _ :: _, [], _, _, _, hne => fun _ => absurd rfl hne
  | [x], [y], _, _, _, _ => by
    intro h
    rw [joinWith, joinWith] at h
    rw [h]
  | [x], y :: z :: zs, hp₁, _, _, _ => by
    intro h
    rw [joinWith] at h
    have hd := congrArg String.data h
    rw [joinWith_semi_data] at hd
    have : ';' ∈ x.data := by
      rw [hd]
      simp
    exact absurd this (hp₁ x (List.mem_singleton.mpr rfl))
  | x :: y :: ys, [z], _, hp₂, _, _ => by
    intro h
    rw [show joinWith ";" [z] = z from rfl] at h
    have hd := congrArg String.data h
    rw [joinWith_semi_data] at hd
    have : ';' ∈ z.data := by
      rw [← hd]
      simp
    exact absurd this (hp₂ z (List.mem_singleton.mpr rfl))
  | x :: y :: ys, z :: w :: ws, hp₁, hp₂, _, _ => by
    intro h
    have hd := congrArg String.data h
    rw [joinWith_semi_data, joinWith_semi_data] at hd
    have hsplit := append_sep_inj ';' x.data z.data _ _
      (hp₁ x (List.mem_cons_self _ _)) (hp₂ z (List.mem_cons_self _ _)) hd
    have hx : x = z := string_data_inj hsplit.1
    have htail : (y :: ys) = (w :: ws) :=
      joinWith_semi_inj (y :: ys) (w :: ws)
        (fun p hp => hp₁ p (List.mem_cons_of_mem _ hp))
        (fun p hp => hp₂ p (List.mem_cons_of_mem _ hp))
        (by simp) (by simp) (string_data_inj hsplit.2)
    rw [hx, htail]

/-- Formatting well-formed entries as `key:value` pieces is injective. -/
theorem map_fmtEntry_inj :
    ∀ (l₁ l₂ : Query), (∀ e ∈ l₁, plainEntry e) → (∀ e ∈ l₂, plainEntry e) →
      l₁.map fmtEntry = l₂.map fmtEntry → l₁ = l₂
  | [], [], _, _ => fun _ => rfl
  | [], _ :: _, _, _ => by simp
  | _ :: _, [], _, _ => by simp
  | e₁ :: r₁, e₂ :: r₂, hp₁, hp₂ => by
    intro h
    simp only [List.map_cons, List.cons.injEq] at h
    obtain ⟨k₁, v₁⟩ := e₁
    obtain ⟨k₂, v₂⟩ := e₂
    have he₁ := hp₁ _ (List.mem_cons_self _ _)
    have he₂ := hp₂ _ (List.mem_cons_self _ _)
    cases v₁ with
    | arr _ => exact he₁.elim
    | str v₁ =>
      cases v₂ with
      | arr _ => exact he₂.elim
      | str v₂ =>
        have hd := congrArg String.data h.1
        rw [fmtEntry_str_data, fmtEntry_str_data] at hd
        have hsplit := append_sep_inj ':' k₁.data k₂.data _ _
          he₁.2.1 he₂.2.1 hd
        have htail : r₁ = r₂ :=
          map_fmtEntry_inj r₁ r₂
            (fun e he => hp₁ e (List.mem_cons_of_mem _ he))
            (fun e he => hp₂ e (List.mem_cons_of_mem _ he)) h.2
        rw [string_data_inj hsplit.1, string_data_inj hsplit.2, htail]

/-- C2 counterexample: two query mappings over the same keys `a` and `b`
that differ in the values of both parameters, yet derive the same cache
key, because the format performs no escaping of `;` and `:`. -/
theorem toScreenshotCacheSlug_collision :
    toScreenshotCacheSlug [("a", .str "x;b:y"), ("b", .str "z")] =
        toScreenshotCacheSlug [("a", .str "x"), ("b", .str "y;b:z")] ∧
      lookupQ [("a", QueryValue.str "x;b:y"), ("b", QueryValue.str "z")] "a" ≠
        lookupQ [("a", QueryValue.str "x"), ("b", QueryValue.str "y;b:z")] "a" := by
  decide

theorem colon_mem_slug (q : Query) (hq : q ≠ []) :
    ':' ∈ (toScreenshotCacheSlug q).data := by
  unfold toScreenshotCacheSlug
  cases hs : List.insertionSort slugLe q with
  | nil =>
    exfalso
    have hlen := List.length_insertionSort slugLe q
    rw [hs] at hlen
    cases q with
    | nil => exact hq rfl
    | cons e r => simp at hlen
  | cons p ps =>
    cases ps with
    | nil =>
      rw [List.map_cons, List.map_nil,
        show joinWith ";" [fmtEntry p] = fmtEntry p from rfl]
      exact piece_has_colon p
    | cons p' ps' =>
      rw [List.map_cons, List.map_cons, joinWith_semi_data]
      exact List.mem_append.mpr (Or.inl (piece_has_colon p))

/-- C2 amended: on query mappings whose values are single strings free of
semicolons and whose keys contain neither colons nor semicolons, the
cache-key derivation is injective up to entry order: equal keys force the
two mappings to hold exactly the same parameters with the same values. -/
theorem toScreenshotCacheSlug_inj_on_plain (q₁ q₂ : Query)
    (h₁ : ∀ e ∈ q₁, plainEntry e) (h₂ : ∀ e ∈ q₂, plainEntry e)
    (h : toScreenshotCacheSlug q₁ = toScreenshotCacheSlug q₂) :
    q₁.Perm q₂ := by
  rcases q₁ with _ | ⟨e₁, r₁⟩
  · rcases q₂ with _ | ⟨e₂, r₂⟩
    · exact List.Perm.refl []
    · exfalso
      have hc := colon_mem_slug (e₂ :: r₂) (by simp)
      rw [← h] at hc
      exact absurd hc (by decide)
  · rcases q₂ with _ | ⟨e₂, r₂⟩
    · exfalso
      have hc := colon_mem_slug (e₁ :: r₁) (by simp)
      rw [h] at hc
      exact absurd hc (by decide)
    · have hmap : (List.insertionSort slugLe (e₁ :: r₁)).map fmtEntry =
          (List.insertionSort slugLe (e₂ :: r₂)).map fmtEntry := by
        apply joinWith_semi_inj _ _ ?_ ?_ ?_ ?_ h
        · intro p hp
          obtain ⟨e, he, rfl⟩ := List.mem_map.mp hp
          exact piece_no_semi e (h₁ e (by simpa using he))
        · intro p hp
          obtain ⟨e, he, rfl⟩ := List.mem_map.mp hp
          exact piece_no_semi e (h₂ e (by simpa using he))
        · simp only [ne_eq, List.map_eq_nil_iff]
          intro hcon
          have hlen := List.length_insertionSort slugLe (e₁ :: r₁)
          rw [hcon] at hlen
          simp at hlen
        · simp only [ne_eq, List.map_eq_nil_iff]
          intro hcon
          have hlen := List.length_insertionSort slugLe (e₂ :: r₂)
          rw [hcon] at hlen
          simp at hlen
      have hsort : List.insertionSort slugLe (e₁ :: r₁) =
          List.insertionSort slugLe (e₂ :: r₂) :=
        map_fmtEntry_inj _ _
          (fun e he => h₁ e (by simpa using he))
          (fun e he => h₂ e (by simpa using he)) hmap
      exact (List.perm_insertionSort slugLe (e₁ :: r₁)).symm.trans
        (hsort ▸ List.perm_insertionSort slugLe (e₂ :: r₂))

/-- Witness for the amended C2 at concrete separator-free inputs. -/
theorem toScreenshotCacheSlug_inj_on_plain_witness :
    List.Perm [("b", QueryValue.str "2"), ("a", QueryValue.str "1")]
      [("a", QueryValue.str "1"), ("b", QueryValue.str "2")] :=
  toScreenshotCacheSlug_inj_on_plain _ _ (by decide) (by decide) (by decide)

/-! ## Cache lifecycle claims -/

/-- C3: evaluating the handler at a state whose index maps a key to a
path with no file on disk.  The code reaches `await rm(path)` on a path
that does not exist, the call rejects with ENOENT, the request fails, and
the stale entry is still in the index afterwards — the lookup neither
reports a silent miss nor removes the entry. -/
theorem stale_lookup_fails_and_keeps_entry :
    screenshotHandler ⟨[("k", "/tmp/x.png")], [], [("k", "/tmp/x.png")]⟩
        "k" "/tmp/f.png" (.ok [1, 2, 3]) =
      (⟨[("k", "/tmp/x.png")], [], [("k", "/tmp/x.png")]⟩,
        .error "ENOENT", []) ∧
      List.lookup "k"
        (screenshotHandler ⟨[("k", "/tmp/x.png")], [], [("k", "/tmp/x.png")]⟩
          "k" "/tmp/f.png" (.ok [1, 2, 3])).1.index = some "/tmp/x.png" := by
  decide

theorem lookup_insertAssoc (k : String) (v : α) :
    ∀ l, List.lookup k (insertAssoc k v l) = some v
  | [] => by simp [insertAssoc]
  | (k', v') :: rest => by
    by_cases hk : k' = k
    · simp [insertAssoc, hk]
    · have hbeq : (k == k') = false :=
        beq_eq_false_iff_ne.mpr (fun h => hk h.symm)
      simp [insertAssoc, hk, List.lookup, hbeq,
        lookup_insertAssoc k v rest]

/-- C9: storing bytes under a key at a fresh path and looking the key up
immediately afterwards hits, returning the fresh path and exactly the
stored bytes read back from disk. -/
theorem store_then_lookup_roundtrip (s : CacheState) (k : String)
    (b : List Nat) (p : String) :
    cacheLookup (cacheStore s k b p) k = some (p, b) := by
  simp [cacheLookup, cacheStore, writeFileFS, readFileFS, lookup_insertAssoc]

/-- C8: in every run of the screenshot handler, every in-memory index
mutation is followed, within the same run, by a full rewrite of the
persisted index file carrying the final index, and at the end of the run
the state is either untouched or has its persisted file equal to the
in-memory index. -/
theorem handler_mutations_followed_by_persist (s : CacheState)
    (slug freshPath : String) (capture : Except String (List Nat)) :
    mutationsPersisted (screenshotHandler s slug freshPath capture).1.index
        (screenshotHandler s slug freshPath capture).2.2 ∧
      ((screenshotHandler s slug freshPath capture).1 = s ∨
        (screenshotHandler s slug freshPath capture).1.persisted =
          (screenshotHandler s slug freshPath capture).1.index) := by
  unfold screenshotHandler
  cases hl : s.index.lookup slug with
  | some p =>
    by_cases he : existsSyncFS s.fs p
    · simp [he, mutationsPersisted]
    · have hrm : rmFS s.fs p = .error "ENOENT" := by
        unfold rmFS
        rw [if_neg]
        intro hcon
        exact he hcon
      simp [he, hrm, mutationsPersisted]
  | none =>
    cases capture with
    | error e => simp [captureAndStore, mutationsPersisted]
    | ok img => simp [captureAndStore, cacheStore, mutationsPersisted]

/-! ## Fragment-builder claims -/

/-- C5: the empty query uses the default timezone America/Denver, the
default instant 2024-01-12 16:00 in that zone, and locale en-US, and the
fragment renders exactly the five fixed built-in rows — no duplicate, no
prepended main-zone row. -/
theorem displayRows_empty_query_defaults :
    targetDate [] = .ok ⟨"America/Denver", 2024, 1, 12, 16, 0⟩ ∧
      resolvedLocale [] = "en-US" ∧
      displayRows [] = .ok fiveDefaultRows ∧
      fiveDefaultRows.length = 5 ∧
      fiveDefaultRows.Nodup ∧
      fiveDefaultRows.map DisplayRow.label = fixedFormats.map RowSpec.name ∧
      prependMainRow [] = false := by
  decide

/-- C4 counterexample: a present but non-numeric `year` parameter makes
the construction of the main zoned date-time fail (NaN is rejected by the
date-time library), rather than being resolved by defaulting. -/
theorem targetDate_error_on_non_numeric_year :
    targetDate [("year", QueryValue.str "abc")] =
      .error "invalid numeric field" := by
  decide

/-- C4 amended: missing `year`, `month`, `day`, `hour`, `minute`
parameters are resolved by substituting the documented defaults, and the
construction of the main zoned date-time succeeds whenever the main
timezone is valid and every supplied field coerces to a number (with the
year in the representable range); out-of-range month, day, hour and
minute values are constrained rather than causing an error. -/
theorem targetDate_ok_of_numeric_fields (q : Query)
    (htz : (tzOffset (mainTimezone q)).isSome)
    (hy : ∀ v, lookupQ q "year" = some v →
      ∃ n, jsToNumber (qvalToString v) = some n ∧
        -271821 ≤ n ∧ n ≤ 275760)
    (hm : ∀ v, lookupQ q "month" = some v →
      (jsToNumber (qvalToString v)).isSome)
    (hd : ∀ v, lookupQ q "day" = some v →
      (jsToNumber (qvalToString v)).isSome)
    (hh : ∀ v, lookupQ q "hour" = some v →
      (jsToNumber (qvalToString v)).isSome)
    (hmin : ∀ v, lookupQ q "minute" = some v →
      (jsToNumber (qvalToString v)).isSome) :
    ∃ z, targetDate q = .ok z := by
  obtain ⟨off, hoff⟩ := Option.isSome_iff_exists.mp htz
  have hy' : ∃ n, numField q "year" 2024 = some n ∧
      -271821 ≤ n ∧ n ≤ 275760 := by
    unfold numField
    cases hl : lookupQ q "year" with
    | none => exact ⟨2024, rfl, by norm_num, by norm_num⟩
    | some v =>
      obtain ⟨n, hn, h₁, h₂⟩ := hy v hl
      exact ⟨n, hn, h₁, h₂⟩
  have hm' : (numField q "month" 1).isSome := by
    unfold numField
    cases hl : lookupQ q "month" with
    | none => rfl
    | some v => exact hm v hl
  have hd' : (numField q "day" 12).isSome := by
    unfold numField
    cases hl : lookupQ q "day" with
    | none => rfl
    | some v => exact hd v hl
  have hh' : (numField q "hour" 16).isSome := by
    unfold numField
    cases hl : lookupQ q "hour" with
    | none => rfl
    | some v => exact hh v hl
  have hmin' : (numField q "minute" 0).isSome := by
    unfold numField
    cases hl : lookupQ q "minute" with
    | none => rfl
    | some v => exact hmin v hl
  obtain ⟨ny, hny, hr₁, hr₂⟩ := hy'
  obtain ⟨nm, hnm⟩ := Option.isSome_iff_exists.mp hm'
  obtain ⟨nd, hnd⟩ := Option.isSome_iff_exists.mp hd'
  obtain ⟨nh, hnh⟩ := Option.isSome_iff_exists.mp hh'
  obtain ⟨nmin, hnmin⟩ := Option.isSome_iff_exists.mp hmin'
  unfold targetDate zonedDateTimeFrom
  rw [hoff, hny, hnm, hnd, hnh, hnmin]
  dsimp only
  rw [if_neg (show ¬(ny < -271821 ∨ 275760 < ny) from by omega)]
  exact ⟨_, rfl⟩

/-- Witness for the amended C4: `year=2025&month=13` (month out of
range, day/hour/minute missing) still constructs successfully. -/
theorem targetDate_ok_of_numeric_fields_witness :
    ∃ z, targetDate [("year", QueryValue.str "2025"),
      ("month", QueryValue.str "13"), ("tz", QueryValue.str "Etc/UTC")] =
        .ok z :=
  targetDate_ok_of_numeric_fields _
    (by decide)
    (fun v hv => by
      obtain rfl := Option.some.inj
        (show some (QueryValue.str "2025") = some v from hv)
      exact ⟨2025, by decide, by decide, by decide⟩)
    (fun v hv => by
      obtain rfl := Option.some.inj
        (show some (QueryValue.str "13") = some v from hv)
      decide)
    (fun v hv =>
      nomatch (show (none : Option QueryValue) = some v from hv))
    (fun v hv =>
      nomatch (show (none : Option QueryValue) = some v from hv))
    (fun v hv =>
      nomatch (show (none : Option QueryValue) = some v from hv))

theorem mapRows_ok_length (mtz : String) (td : ZDT) :
    ∀ (fs : List RowSpec) (rows : List DisplayRow),
      mapRows mtz td fs = .ok rows → rows.length = fs.length
  | [], rows => by
    intro h
    cases h
    rfl
  | f :: fs, rows => by
    intro h
    unfold mapRows at h
    cases hdt : rowDatetime mtz td f with
    | error e => rw [hdt] at h; cases h
    | ok dt =>
      rw [hdt] at h
      cases hrest : mapRows mtz td fs with
      | error e => rw [hrest] at h; cases h
      | ok rest =>
        rw [hrest] at h
        cases h
        simp [mapRows_ok_length mtz td fs rest hrest]

/-- C6 counterexample: with `tz=Asia/Tokyo&additionalTimezones=Asia/Tokyo`
the main zone is absent from the five fixed rows — so the claim requires
a prepended row — yet the code checks the whole row list, finds the zone
among the additional rows, and prepends nothing. -/
theorem prependMainRow_checks_additional_rows :
    prependMainRow [("tz", QueryValue.str "Asia/Tokyo"),
        ("additionalTimezones", QueryValue.str "Asia/Tokyo")] = false ∧
      mainTimezone [("tz", QueryValue.str "Asia/Tokyo"),
          ("additionalTimezones", QueryValue.str "Asia/Tokyo")] ∉
        fixedFormats.map RowSpec.timezone := by
  decide

/-- C6 amended: the fragment prepends the extra main-zone row exactly
when the main timezone is absent from the whole display-row list — the
five fixed rows and the additional-timezone rows — and the rendered
row count is the row-list length plus one exactly when the row is
prepended. -/
theorem prependMainRow_iff_absent_from_all_rows (q : Query) :
    (prependMainRow q = true ↔
        mainTimezone q ∉ (keyFormats q).map RowSpec.timezone) ∧
      ∀ rows, displayRows q = .ok rows →
        rows.length =
          (if prependMainRow q then 1 else 0) + (keyFormats q).length := by
  constructor
  · unfold prependMainRow
    simp [List.any_eq_true, List.mem_map, beq_iff_eq]
  · intro rows hrows
    unfold displayRows at hrows
    cases htd : targetDate q with
    | error e => rw [htd] at hrows; cases hrows
    | ok td =>
      rw [htd] at hrows
      dsimp only at hrows
      cases hm : mapRows (mainTimezone q) td (keyFormats q) with
      | error e => rw [hm] at hrows; cases hrows
      | ok mrows =>
        rw [hm] at hrows
        cases hrows
        have hlen := mapRows_ok_length _ _ _ _ hm
        cases hp : prependMainRow q
        · simp [hp, hlen]
        · simp [hp, hlen]
          omega

/-- Witness for the amended C6 at the empty query: no prepended row and
five rendered rows. -/
theorem prependMainRow_iff_absent_from_all_rows_witness :
    fiveDefaultRows.length =
      (if prependMainRow [] then 1 else 0) + (keyFormats []).length :=
  (prependMainRow_iff_absent_from_all_rows []).2 fiveDefaultRows
    (by decide)

theorem mapRows_ok_mem (mtz : String) (td : ZDT) :
    ∀ (fs : List RowSpec) (rows : List DisplayRow),
      mapRows mtz td fs = .ok rows → ∀ r ∈ rows,
        ∃ f ∈ fs, r.label = f.name ∧ r.timezone = f.timezone ∧
          r.locale = f.locale ∧ rowDatetime mtz td f = .ok r.datetime
  | [], rows => by
    intro h r hr
    cases h
    cases hr
  | f :: fs, rows => by
    intro h r hr
    unfold mapRows at h
    cases hdt : rowDatetime mtz td f with
    | error e => rw [hdt] at h; cases h
    | ok dt =>
      rw [hdt] at h
      cases hrest : mapRows mtz td fs with
      | error e => rw [hrest] at h; cases h
      | ok rest =>
        rw [hrest] at h
        cases h
        rcases List.mem_cons.mp hr with hr | hr
        · subst hr
          exact ⟨f, List.mem_cons_self f fs, rfl, rfl, rfl, hdt⟩
        · obtain ⟨f', hf', h₁, h₂, h₃, h₄⟩ :=
            mapRows_ok_mem mtz td fs rest hrest r hr
          exact ⟨f', List.mem_cons_of_mem f hf', h₁, h₂, h₃, h₄⟩

/-- C7: every rendered comparison row shows the main zoned date-time
itself when the row timezone equals the main timezone, and otherwise the
main date-time taken to its absolute instant and converted into the row
timezone. -/
theorem displayRow_identity_or_instant_conversion (q : Query) (td : ZDT)
    (rows : List DisplayRow) (htd : targetDate q = .ok td)
    (hrows : displayRows q = .ok rows) :
    ∀ r ∈ rows,
      (r.timezone = mainTimezone q ∧ r.datetime = td) ∨
        (r.timezone ≠ mainTimezone q ∧
          toZonedDateTimeISO (toInstant td) r.timezone = .ok r.datetime) := by
  unfold displayRows at hrows
  rw [htd] at hrows
  dsimp only at hrows
  cases hm : mapRows (mainTimezone q) td (keyFormats q) with
  | error e => rw [hm] at hrows; cases hrows
  | ok mrows =>
    rw [hm] at hrows
    cases hrows
    intro r hr
    rcases List.mem_append.mp hr with hpre | hmap
    · cases hp : prependMainRow q with
      | false => rw [hp] at hpre; cases hpre
      | true =>
        rw [hp] at hpre
        rcases List.mem_singleton.mp hpre with rfl
        exact Or.inl ⟨rfl, rfl⟩
    · obtain ⟨f, _, _, hrtz, _, hdt⟩ := mapRows_ok_mem _ _ _ _ hm r hmap
      unfold rowDatetime at hdt
      by_cases heq : f.timezone = mainTimezone q
      · rw [if_pos heq] at hdt
        exact Or.inl ⟨hrtz.trans heq, (Except.ok.inj hdt).symm⟩
      · rw [if_neg heq] at hdt
        refine Or.inr ⟨fun hcon => heq (hrtz ▸ hcon), ?_⟩
        rw [hrtz]
        exact hdt

/-- Witness for C7 at the empty query, instantiated at the first rendered
row: Los Angeles differs from the main zone, so its row shows the
converted instant. -/
theorem displayRow_identity_or_instant_conversion_witness :
    (("America/Los_Angeles" : String) = mainTimezone [] ∧
        (⟨"America/Los_Angeles", 2024, 1, 12, 15, 0⟩ : ZDT) =
          ⟨"America/Denver", 2024, 1, 12, 16, 0⟩) ∨
      (("America/Los_Angeles" : String) ≠ mainTimezone [] ∧
        toZonedDateTimeISO
            (toInstant ⟨"America/Denver", 2024, 1, 12, 16, 0⟩)
            "America/Los_Angeles" =
          .ok ⟨"America/Los_Angeles", 2024, 1, 12, 15, 0⟩) :=
  displayRow_identity_or_instant_conversion []
    ⟨"America/Denver", 2024, 1, 12, 16, 0⟩ fiveDefaultRows
    (by decide) (by decide)
    ⟨"Ward Radio HQ", "America/Los_Angeles",
      ⟨"America/Los_Angeles", 2024, 1, 12, 15, 0⟩, "en-US"⟩
    (by decide)

/-! ## Aliasing of the two additionalTimezones encodings (C10) -/

theorem orderedInsert_entryRel :
    ∀ {l₁ l₂ : Query}, List.Forall₂ entryRel l₁ l₂ →
      ∀ {a₁ a₂ : String × QueryValue}, entryRel a₁ a₂ →
        List.Forall₂ entryRel (l₁.orderedInsert slugLe a₁)
          (l₂.orderedInsert slugLe a₂)
  | _, _, List.Forall₂.nil, a₁, a₂, ha =>
    List.Forall₂.cons ha List.Forall₂.nil
  | _, _, List.Forall₂.cons hbc hrest, a₁, a₂, ha => by
    rename_i b bs c cs
    by_cases hle : slugLe a₁ b
    · have hle' : slugLe a₂ bs := by
        unfold slugLe at hle ⊢
        rw [← ha.1, ← hbc.1]
        exact hle
      rw [List.orderedInsert, List.orderedInsert, if_pos hle, if_pos hle']
      exact List.Forall₂.cons ha (List.Forall₂.cons hbc hrest)
    · have hle' : ¬slugLe a₂ bs := by
        unfold slugLe at hle ⊢
        rw [← ha.1, ← hbc.1]
        exact hle
      rw [List.orderedInsert, List.orderedInsert, if_neg hle, if_neg hle']
      exact List.Forall₂.cons hbc (orderedInsert_entryRel hrest ha)

theorem insertionSort_entryRel :
    ∀ {l₁ l₂ : Query}, List.Forall₂ entryRel l₁ l₂ →
      List.Forall₂ entryRel (List.insertionSort slugLe l₁)
        (List.insertionSort slugLe l₂)
  | _, _, List.Forall₂.nil => List.Forall₂.nil
  | _, _, List.Forall₂.cons ha hrest => by
    rw [List.insertionSort, List.insertionSort]
    exact orderedInsert_entryRel (insertionSort_entryRel hrest) ha

theorem map_fmtEntry_of_entryRel :
    ∀ {l₁ l₂ : Query}, List.Forall₂ entryRel l₁ l₂ →
      l₁.map fmtEntry = l₂.map fmtEntry
  | _, _, List.Forall₂.nil => rfl
  | _, _, List.Forall₂.cons ha hrest => by
    rename_i a₁ l₁ a₂ l₂
    rw [List.map_cons, List.map_cons, map_fmtEntry_of_entryRel hrest]
    unfold fmtEntry
    rw [ha.1, ha.2]

theorem toScreenshotCacheSlug_of_entryRel {q₁ q₂ : Query}
    (h : List.Forall₂ entryRel q₁ q₂) :
    toScreenshotCacheSlug q₁ = toScreenshotCacheSlug q₂ :=
  congrArg (joinWith ";")
    (map_fmtEntry_of_entryRel (insertionSort_entryRel h))

theorem splitCharList_no_sep (c : Char) :
    ∀ l : List Char, c ∉ l → splitCharList c l = [l]
  | [] => fun _ => rfl
  | x :: xs => fun h => by
    rw [splitCharList,
      if_neg (fun hxc => h (by rw [hxc]; exact List.mem_cons_self c xs)),
      splitCharList_no_sep c xs (fun hm => h (List.mem_cons_of_mem _ hm))]

theorem splitCharList_append_sep (c : Char) :
    ∀ (a t : List Char), c ∉ a →
      splitCharList c (a ++ c :: t) = a :: splitCharList c t
  | [], t => fun _ => by
    rw [List.nil_append, splitCharList, if_pos rfl]
  | x :: xs, t => fun h => by
    rw [List.cons_append, splitCharList,
      if_neg (fun hxc => h (by rw [hxc]; exact List.mem_cons_self c xs)),
      splitCharList_append_sep c xs t (fun hm => h (List.mem_cons_of_mem _ hm))]

theorem append_comma_data (x j : String) :
    (x ++ "," ++ j).data = x.data ++ ',' :: j.data := by
  simp [String.data_append]

/-- Splitting a comma-join recovers the original pieces as long as the
list is nonempty and no piece contains a comma. -/
theorem splitChar_joinWith :
    ∀ (vs : List String), vs ≠ [] → (∀ s ∈ vs, ',' ∉ s.data) →
      splitChar ',' (joinWith "," vs) = vs
  | [] => fun hne _ => absurd rfl hne
  | [x] => fun _ hc => by
    unfold splitChar
    rw [show joinWith "," [x] = x from rfl,
      splitCharList_no_sep ',' x.data (hc x (List.mem_singleton.mpr rfl))]
    rw [List.map_cons, List.map_nil]
  | x :: y :: ys => fun _ hc => by
    unfold splitChar
    have hd : (joinWith "," (x :: y :: ys)).data =
        x.data ++ ',' :: (joinWith "," (y :: ys)).data := by
      rw [joinWith]
      exact append_comma_data x (joinWith "," (y :: ys))
    rw [hd, splitCharList_append_sep ',' x.data _
      (hc x (List.mem_cons_self _ _))]
    rw [List.map_cons]
    have htail := splitChar_joinWith (y :: ys) (by simp)
      (fun s hs => hc s (List.mem_cons_of_mem _ hs))
    unfold splitChar at htail
    rw [htail]

/-- C10 counterexample: encoding `additionalTimezones` as the
single-element sequence whose element contains a comma gives the same
cache key as the comma-joined string encoding, but different additional
display rows — the string encoding is re-split at the comma. -/
theorem comma_join_alias_rows_differ :
    toScreenshotCacheSlug [("additionalTimezones", QueryValue.arr ["x,y"])] =
        toScreenshotCacheSlug
          [("additionalTimezones", QueryValue.str "x,y")] ∧
      additionalTzList [("additionalTimezones", QueryValue.arr ["x,y"])] ≠
        additionalTzList [("additionalTimezones", QueryValue.str "x,y")] := by
  decide

/-- C10 amended: replacing a sequence-valued parameter with the
comma-join of its elements never changes the cache key; and when the
sequence is nonempty with comma-free elements, the `additionalTimezones`
expansion — hence the list of additional display rows — is also identical
for the two encodings. -/
theorem comma_join_alias (pre post : Query) (k : String)
    (vs : List String) :
    toScreenshotCacheSlug (pre ++ (k, QueryValue.arr vs) :: post) =
        toScreenshotCacheSlug
          (pre ++ (k, QueryValue.str (joinWith "," vs)) :: post) ∧
      (vs ≠ [] → (∀ s ∈ vs, ',' ∉ s.data) →
        ∀ q₁ q₂ : Query,
          lookupQ q₁ "additionalTimezones" = some (QueryValue.arr vs) →
          lookupQ q₂ "additionalTimezones" =
            some (QueryValue.str (joinWith "," vs)) →
          additionalTzList q₁ = additionalTzList q₂) := by
  constructor
  · apply toScreenshotCacheSlug_of_entryRel
    exact List.rel_append (List.forall₂_same.mpr (fun e _ => ⟨rfl, rfl⟩))
      (List.Forall₂.cons ⟨rfl, rfl⟩
        (List.forall₂_same.mpr (fun e _ => ⟨rfl, rfl⟩)))
  · intro hne hc q₁ q₂ h₁ h₂
    unfold additionalTzList
    rw [h₁, h₂]
    exact (splitChar_joinWith vs hne hc).symm

/-- Witness for the amended C10 at concrete comma-free zones. -/
theorem comma_join_alias_witness :
    additionalTzList
        [("additionalTimezones",
          QueryValue.arr ["Asia/Tokyo", "Europe/Paris"])] =
      additionalTzList
        [("additionalTimezones",
          QueryValue.str (joinWith "," ["Asia/Tokyo", "Europe/Paris"]))] :=
  (comma_join_alias [] [] "additionalTimezones"
      ["Asia/Tokyo", "Europe/Paris"]).2
    (by decide) (by decide) _ _ (by decide) (by decide)
